import Mathlib

/-!
Verification development for the Gitea backend of netlify-cms
(packages/netlify-cms-backend-gitea: `API.ts` and `implementation.ts`).

The TypeScript source is shallowly embedded: network endpoints become
explicit oracle functions passed in as parameters, promise pipelines become
pure functions over `Except`, and the unbounded `while` loop of `listFiles`
receives an explicit fuel argument (`none` means the loop has not terminated
within the given fuel).
-/

namespace Gitea

/-! ## JavaScript value and coercion model

`listFiles` builds untyped object literals and `getMedia` destructures
fields from them, so listed files are modelled as string-keyed records of
JS values; a missing key reads as `undefined`. -/

inductive JsValue where
  | undefined : JsValue
  | vstr : String → JsValue
  | vnum : Nat → JsValue
deriving DecidableEq, Repr

/-- A JavaScript object: an association list of fields. -/
def JsObj := List (String × JsValue)

instance : DecidableEq JsObj := by
  unfold JsObj
  infer_instance

/-- Field access `o.k`: the value at key `k`, `undefined` when absent. -/
def getField (o : JsObj) (k : String) : JsValue :=
  match o.find? (fun p => p.1 == k) with
  | some p => p.2
  | none => .undefined

/-- `String.prototype.split` with a one-character separator, char by
char: `"".split(sep)` is `[""]`, and adjacent separators produce empty
segments. -/
def jsSplitChars (sep : Char) : List Char → List (List Char)
  | [] => [[]]
  | c :: cs =>
    match jsSplitChars sep cs with
    | [] => [[]]
    | w :: ws => if c = sep then [] :: w :: ws else (c :: w) :: ws

/-- `s.split(sep)` for a one-character separator. -/
def jsSplit (sep : Char) (s : String) : List String :=
  (jsSplitChars sep s.toList).map (fun w => String.mk w)

/-- `s.startsWith(pre)`, char by char. -/
def charsHavePre : List Char → List Char → Bool
  | _, [] => true
  | [], _ :: _ => false
  | c :: cs, p :: ps => c == p && charsHavePre cs ps

/-- `s.startsWith(pre)`. -/
def jsStartsWith (s pre : String) : Bool :=
  charsHavePre s.toList pre.toList

/-- Value of a nonempty all-digit character list. -/
def digitsVal (cs : List Char) : Nat :=
  cs.foldl (fun a c => a * 10 + (c.toNat - '0'.toNat)) 0

/-- JS `Number(s)` for the string fragment relevant here: `""` coerces to
`0` and nonnegative decimal-digit literals to their value; every other
string relevant to a repository path (anything containing `/`, `,`, `.`
or a letter) coerces to `NaN`, modelled as `none`. -/
def jsStringToNumber (s : String) : Option Int :=
  match s.toList with
  | [] => some 0
  | cs => if cs.all (fun c => c.isDigit) then some (Int.ofNat (digitsVal cs)) else none

/-- `","`-joining of an array of strings, as JS `Array.prototype.toString`
performs before numeric coercion. -/
def joinCommaChars : List (List Char) → List Char
  | [] => []
  | [w] => w
  | w :: ws => w ++ ',' :: joinCommaChars ws

/-- JS numeric coercion of an array of strings (as in `array - 1`):
the array is first converted to its `toString`, the elements joined
with `","`, and that string is passed to `Number`. -/
def jsArrayToNumber (l : List String) : Option Int :=
  jsStringToNumber (String.mk (joinCommaChars (l.map String.toList)))

/-! ## Tree lister (`API.ts`, `listFiles`) -/

/-- An entry of the `tree` array returned by
`GET /repos/{repo}/git/trees/{sha}`. -/
structure TreeItem where
  type : String
  sha : String
  name : String
  path : String
  size : Nat
deriving DecidableEq, Repr

/-- One page of the paginated tree listing. -/
structure TreePage where
  truncated : Bool
  tree : List TreeItem
deriving DecidableEq, Repr

/-- The remote endpoints `listFiles` talks to: `resolve k` is the result of
the `k`-th call to `defaultBranchCommitSha` (branch → commit SHA), and
`getTree sha page` the tree page fetched at that SHA and page index. -/
structure TreeServer where
  resolve : Nat → String
  getTree : String → Nat → TreePage

/-- The third filter of `listFiles` in non-recursive mode, verbatim from
the source: `(path.split("/").length) == (item.path.split("/")-1)`.
The right-hand side subtracts `1` from an *array* (the `.length` is
missing in the source), which JS evaluates by coercing the array to a
number via its comma-joined string. -/
def nonRecursiveKeep (path itemPath : String) : Bool :=
  match jsArrayToNumber (jsSplit '/' itemPath) with
  | none => false
  | some n => Int.ofNat (jsSplit '/' path).length == n - 1

/-- The object literal `{type, id: sha, name, path, size}` that
`listFiles` pushes for each kept tree item. -/
def mkListedFile (file : TreeItem) : JsObj :=
  [("type", .vstr file.type), ("id", .vstr file.sha), ("name", .vstr file.name),
   ("path", .vstr file.path), ("size", .vnum file.size)]

/-- The filter/map pipeline applied to `listCall.tree` on each page:
keep blobs, keep paths starting with `path`, apply the recursion/depth
filter, then project to the listed-file object. -/
def filterPage (path : String) (recursive : Bool) (tree : List TreeItem) : List JsObj :=
  ((((tree.filter (fun item => item.type == "blob")).filter
      (fun item => jsStartsWith item.path path)).filter
      (fun item => if recursive then true else nonRecursiveKeep path item.path)).map
      mkListedFile)

/-- The `while (listCall.truncated == true)` loop of `listFiles`.
`page` is the next page index (starts at 1), `k` counts branch
resolutions performed so far (the source awaits
`defaultBranchCommitSha()` inside the loop, so one resolution happens
per iteration), `files` the accumulator, and `reqs` the trace of
`(sha, page)` tree requests issued.  Fuel bounds the number of
iterations we unfold; `none` means the loop still had `truncated = true`
after `fuel` iterations. -/
def listFilesGo (srv : TreeServer) (path : String) (recursive : Bool) :
    Nat → Nat → Nat → List JsObj → List (String × Nat) →
    Option (List JsObj × List (String × Nat))
  | 0, _, _, _, _ => none
  | fuel + 1, page, k, files, reqs =>
    let sha := srv.resolve k
    let listCall := srv.getTree sha page
    let files' := files ++ filterPage path recursive listCall.tree
    let reqs' := reqs ++ [(sha, page)]
    if listCall.truncated then
      listFilesGo srv path recursive fuel (page + 1) (k + 1) files' reqs'
    else
      some (files', reqs')

/-- `listFiles(path, recursive = false)`: the loop starts at `page = 1`
with the sentinel `truncated: true`, so the body runs at least once. -/
def listFiles (srv : TreeServer) (path : String) (recursive : Bool) (fuel : Nat) :
    Option (List JsObj × List (String × Nat)) :=
  listFilesGo srv path recursive fuel 1 0 [] []

/-! ## Concrete servers used as test inputs -/

/-- A one-page server whose tree holds a direct child `posts/a.md` and a
nested file `posts/sub/b.md`. -/
def srvPosts : TreeServer where
  resolve := fun _ => "s"
  getTree := fun _ _ =>
    { truncated := false,
      tree := [⟨"blob", "sha1", "a.md", "posts/a.md", 3⟩,
               ⟨"blob", "sha2", "b.md", "posts/sub/b.md", 4⟩] }

/-- A server whose branch head moves between resolutions: the `k`-th
branch resolution yields `"sha" ++ k`, and only page 1 is truncated. -/
def srvShifting : TreeServer where
  resolve := fun k => "sha" ++ toString k
  getTree := fun _ page => { truncated := page == 1, tree := [] }

/-- A server that reports `truncated: true` on every page. -/
def srvAlwaysTruncated : TreeServer where
  resolve := fun _ => "s"
  getTree := fun _ _ => { truncated := true, tree := [] }

/-- A server whose pages 1 and 2 are truncated and page 3 is not. -/
def srvThreePages : TreeServer where
  resolve := fun _ => "s"
  getTree := fun _ page => { truncated := decide (page < 3), tree := [] }

/-! ## Commit batcher (`API.ts`: `getFileSha`, `getCommitItems`,
`uploadAndCommit`, `persistFiles`) -/

/-- The typed API error the source inspects in its `catch` blocks via
`error instanceof APIError && error.status === 404`. -/
structure ApiErr where
  isAPIError : Bool
  status : Nat
deriving DecidableEq, Repr

/-- A logical file of a persist batch (an `Entry` or `AssetProxy`):
a path plus the raw content fed to `toBase64`. -/
structure PFile where
  path : String
  content : String
deriving DecidableEq, Repr

/-- The `CommitAction` enum of the source. -/
inductive CommitAction where
  | create
  | delete
  | move
  | update
deriving DecidableEq, Repr

/-- A `CommitItem` as built by `getCommitItems` (the source also carries
the probed `sha` alongside the declared `CommitItem` fields). -/
structure CommitItem where
  action : CommitAction
  base64Content : String
  path : String
  sha : String
deriving DecidableEq, Repr

/-- `getFileSha(path, branch)`: probe `GET /contents/{path}?ref=branch`
for the current SHA (`data.sha`); a 404 `APIError` resolves to `""`
("file does not exist"); any other error is rethrown.  `probe` is the
remote contents endpoint. -/
def getFileSha (probe : String → String → Except ApiErr String) (path branch : String) :
    Except ApiErr String :=
  match probe path branch with
  | .ok sha => .ok sha
  | .error e => if e.isAPIError && e.status == 404 then .ok "" else .error e

/-- `getCommitItems(files, branch)`: for each file, encode the content
and probe its current SHA, then classify the action as `UPDATE` when
`fileSha !== ""` and `CREATE` otherwise, carrying the probed SHA.
`Promise.all` resolves to the items in input order; if some probe
rethrows, the whole call rejects (modelled with the first failing
file's error in list order). -/
def getCommitItems (toB64 : PFile → String)
    (probe : String → String → Except ApiErr String) (branch : String) :
    List PFile → Except ApiErr (List CommitItem)
  | [] => .ok []
  | file :: rest =>
    match getFileSha probe file.path branch with
    | .error e => .error e
    | .ok fileSha =>
      match getCommitItems toB64 probe branch rest with
      | .error e => .error e
      | .ok items =>
        .ok ({ action := if fileSha != "" then .update else .create,
               base64Content := toB64 file, path := file.path, sha := fileSha } :: items)

/-- A `PUT`/`POST` request body against `/repos/{repo}/contents/{path}`;
only the `PUT` (update) body carries the prior `sha`. -/
structure WriteReq where
  method : String
  path : String
  message : String
  branch : String
  content : String
  sha : Option String
deriving DecidableEq, Repr

/-- The request `uploadAndCommit` issues for one item. -/
def mkWriteReq (commitMessage branch : String) (item : CommitItem) : WriteReq :=
  if item.action = .update then
    { method := "PUT", path := item.path, message := commitMessage, branch := branch,
      content := item.base64Content, sha := some item.sha }
  else
    { method := "POST", path := item.path, message := commitMessage, branch := branch,
      content := item.base64Content, sha := none }

/-- `uploadAndCommit(items, {commitMessage, branch})`: `forEach` issues
one write request per item without awaiting or inspecting any outcome,
and the function itself returns `undefined` (`Unit`).  `write` is the
remote write endpoint; its per-request results are computed and then
discarded, exactly as the un-awaited `requestJSON` promises are in the
source. -/
def uploadAndCommit (write : WriteReq → Except ApiErr Unit) (items : List CommitItem)
    (commitMessage branch : String) : Unit :=
  let _results := items.map (fun item => write (mkWriteReq commitMessage branch item))
  ()

/-- `files = entry ? [entry, ...mediaFiles] : mediaFiles`. -/
def batchFiles (entry : Option PFile) (mediaFiles : List PFile) : List PFile :=
  match entry with
  | some e => e :: mediaFiles
  | none => mediaFiles

/-- `persistFiles(entry, mediaFiles, options)`: build the commit items
(probe errors reject the returned promise), then hand them to
`uploadAndCommit`. -/
def persistFiles (toB64 : PFile → String)
    (probe : String → String → Except ApiErr String)
    (write : WriteReq → Except ApiErr Unit) (branch : String)
    (entry : Option PFile) (mediaFiles : List PFile) (commitMessage : String) :
    Except ApiErr Unit :=
  (getCommitItems toB64 probe branch (batchFiles entry mediaFiles)).map
    (fun items => uploadAndCommit write items commitMessage branch)

/-- How claim C6 reads a single file's classification: the commit item
keeps the file's path and encoded content; a 404 probe yields action
`Create` with empty SHA; a probe resolving a nonempty content
identifier yields `Update` carrying that identifier. -/
def classifiedAs (toB64 : PFile → String)
    (probe : String → String → Except ApiErr String) (branch : String)
    (f : PFile) (it : CommitItem) : Prop :=
  it.path = f.path ∧ it.base64Content = toB64 f ∧
  (∀ e, probe f.path branch = .error e → e.isAPIError = true ∧ e.status = 404 →
    it.action = .create ∧ it.sha = "") ∧
  (∀ s, probe f.path branch = .ok s → s ≠ "" → it.action = .update ∧ it.sha = s)

/-- A concrete stand-in for the external base64 encoder. -/
def toB64c : PFile → String := fun f => f.content

/-- A concrete probe: 404 on `a.md`, SHA `"abc123"` elsewhere. -/
def probeC : String → String → Except ApiErr String :=
  fun path _ => if path = "a.md" then .error ⟨true, 404⟩ else .ok "abc123"

/-- A concrete two-file persist batch. -/
def filesC : List PFile := [⟨"a.md", "A"⟩, ⟨"b.md", "B"⟩]

/-- A write endpoint rejecting every request (e.g. with a 409 conflict). -/
def writeFailC : WriteReq → Except ApiErr Unit := fun _ => .error ⟨true, 409⟩

/-- A write endpoint accepting every request. -/
def writeOkC : WriteReq → Except ApiErr Unit := fun _ => .ok ()

/-! ## Bounded downloader (`implementation.ts`, `fetchFiles`):
the settled result list -/

/-- A file descriptor handed to `fetchFiles` (it reads `file.path` and
`file.sha`). -/
structure DlFile where
  path : String
  sha : String
deriving DecidableEq, Repr

/-- A promise rejection reason, abstracted to the one property the
source inspects: its JS truthiness.  The `catch` parameter default
`(err = true)` makes an `undefined` rejection reason count as truthy. -/
structure Rejection where
  truthy : Bool
deriving DecidableEq, Repr

/-- The value each inner promise of `fetchFiles` resolves to:
`{file, data}` on a successful read, `{error: err}` when the read
rejected (the rejection is caught, never rethrown). -/
inductive LoadedEntry (α : Type) where
  | success (file : DlFile) (data : α)
  | failure (errTruthy : Bool)
deriving DecidableEq, Repr

/-- Truthiness of `loadedEntry.error`: the field is absent (hence
`undefined`, falsy) on a success object, and the caught rejection
reason's truthiness on a failure object. -/
def LoadedEntry.errorTruthy {α : Type} : LoadedEntry α → Bool
  | .success _ _ => false
  | .failure t => t

/-- `fetchFiles(files)`: the list `Promise.all` settles to — one entry
per file, in input order — filtered by `!loadedEntry.error`.  `readF`
is `api.readFile`; the semaphore bounds scheduling but does not change
the settled values, which this functional model captures. -/
def fetchFiles {α : Type} (readF : DlFile → Except Rejection α) (files : List DlFile) :
    List (LoadedEntry α) :=
  (files.map (fun file =>
    match readF file with
    | .ok data => LoadedEntry.success file data
    | .error err => LoadedEntry.failure err.truthy)).filter
    (fun le => !le.errorTruthy)

/-- The `{file, data}` elements of a result list. -/
def successElements {α : Type} : List (LoadedEntry α) → List (DlFile × α)
  | [] => []
  | .success f d :: rest => (f, d) :: successElements rest
  | .failure _ :: rest => successElements rest

/-- The files whose read succeeded, paired with their data, in input
order. -/
def okFetches {α : Type} (readF : DlFile → Except Rejection α) (files : List DlFile) :
    List (DlFile × α) :=
  files.filterMap (fun f =>
    match readF f with
    | .ok d => some (f, d)
    | .error _ => none)

/-- A concrete reader for which file `f3`'s read rejects (truthily) and
every other read succeeds with the file's path as data. -/
def readFC : DlFile → Except Rejection String :=
  fun g => if g.path = "f3" then .error ⟨true⟩ else .ok g.path

/-- Five concrete files to bulk-fetch. -/
def filesD : List DlFile :=
  [⟨"f1", "s1"⟩, ⟨"f2", "s2"⟩, ⟨"f3", "s3"⟩, ⟨"f4", "s4"⟩, ⟨"f5", "s5"⟩]

/-! ## `getMedia` (`implementation.ts`) -/

/-- The mapper inside `getMedia`: destructure
`{sha, download_url, path, size, name}` from a listed file and build
`{id: sha, name, size, download_url, path}`. -/
def getMediaMap (o : JsObj) : JsObj :=
  [("id", getField o "sha"), ("name", getField o "name"), ("size", getField o "size"),
   ("download_url", getField o "download_url"), ("path", getField o "path")]

/-- `getMedia()`: list the media folder (recursion defaulted to false)
and map every listed file through `getMediaMap`. -/
def getMedia (srv : TreeServer) (mediaFolder : String) (fuel : Nat) : Option (List JsObj) :=
  (listFiles srv mediaFolder false fuel).map (fun r => r.1.map getMediaMap)

/-- A server with a single numeric root path, one of the rare paths the
buggy non-recursive filter keeps (its split coerces to a number). -/
def srvNumeric : TreeServer where
  resolve := fun _ => "s"
  getTree := fun _ _ => { truncated := false, tree := [⟨"blob", "shaX", "2", "2", 1⟩] }

/-! ## Bounded downloader: the concurrency gate

`fetchFiles` wraps every `readFile` in `sem.take(...)` of a semaphore
created as `semaphore(MAX_CONCURRENT_DOWNLOADS)` and calls
`sem.leave()` in both the `then` and the `catch` continuation.  The
semaphore itself lives in the external `semaphore` npm package, so its
admission discipline is modelled from the spec. -/

/-- `MAX_CONCURRENT_DOWNLOADS` from `implementation.ts`. -/
def MAX_CONCURRENT_DOWNLOADS : Nat := 10

/-- Where one file's fetch stands during a `fetchFiles` run. -/
inductive FetchPhase where
  | waiting
  | inflight
  | settled
deriving DecidableEq, Repr

/-- Global state of one `fetchFiles` run over `n` files. -/
structure DlState (n : Nat) where
  phase : Fin n → FetchPhase

/-- Number of fetches currently in flight. -/
def inflightCount {n : Nat} (s : DlState n) : Nat :=
  (Finset.univ.filter (fun i => s.phase i = FetchPhase.inflight)).card

/-- Modelled from the spec: "The Bounded Downloader enforces a
concurrency ceiling (10 concurrent in-flight fetches) via a counting
admission gate; excess requests queue until a slot frees."
`start i` is `sem.take` admitting file `i`'s fetch, possible only while
a slot is free; `finish i` is the fetch settling (either continuation),
with `sem.leave` freeing its slot. -/
inductive DlStep {n : Nat} : DlState n → DlState n → Prop where
  | start (s : DlState n) (i : Fin n) :
      s.phase i = .waiting →
      inflightCount s < MAX_CONCURRENT_DOWNLOADS →
      DlStep s ⟨Function.update s.phase i .inflight⟩
  | finish (s : DlState n) (i : Fin n) :
      s.phase i = .inflight →
      DlStep s ⟨Function.update s.phase i .settled⟩

/-- The initial state: every fetch is waiting. -/
def dlInit (n : Nat) : DlState n := ⟨fun _ => .waiting⟩

/-- The states one `fetchFiles` run can pass through. -/
def DlReachable {n : Nat} (s : DlState n) : Prop :=
  Relation.ReflTransGen DlStep (dlInit n) s

/-! ## `persistEntry` mutual exclusion (`implementation.ts`)

`persistEntry` runs `api.persistFiles` through
`runWithLock(this.lock, ..., 'Failed to acquire persist entry lock')`
on the per-instance `asyncLock()`.  `asyncLock` and `runWithLock` live
in `netlify-cms-lib-util`, outside this repository's sources, so the
lock discipline is modelled from the spec: "`persistEntry` must execute
under mutual exclusion: only one persist operation may run at a time
for a given backend instance; a second concurrent call must either wait
or fail fast with a distinct 'lock not acquired' error rather than
interleave writes." -/

/-- Where one of two concurrent `persistEntry` calls stands: not yet
admitted, holding the lock with `k` write steps left, or finished
(lock released). -/
inductive PPhase where
  | idle
  | crit (k : Nat)
  | done
deriving DecidableEq, Repr

/-- Joint state of two concurrent `persistEntry` calls on one backend
instance: the lock owner, each call's phase, and the interleaved
history of performed write steps (each element names the call that
wrote). -/
structure LockState where
  lock : Option (Fin 2)
  pc : Fin 2 → PPhase
  trace : List (Fin 2)

/-- Modelled from the spec (see the section comment): call `i` acquires
the lock only while it is free, performs its `writes i` write steps
only while holding it, and releases it afterwards; a call that finds
the lock held waits (no transition admits it). -/
inductive LockStep (writes : Fin 2 → Nat) : LockState → LockState → Prop where
  | acquire (s : LockState) (i : Fin 2) :
      s.pc i = .idle → s.lock = none →
      LockStep writes s ⟨some i, Function.update s.pc i (.crit (writes i)), s.trace⟩
  | write (s : LockState) (i : Fin 2) (k : Nat) :
      s.pc i = .crit (k + 1) →
      LockStep writes s ⟨s.lock, Function.update s.pc i (.crit k), s.trace ++ [i]⟩
  | release (s : LockState) (i : Fin 2) :
      s.pc i = .crit 0 →
      LockStep writes s ⟨none, Function.update s.pc i .done, s.trace⟩

/-- Both calls pending, lock free, no writes performed. -/
def lockInit : LockState := ⟨none, fun _ => .idle, []⟩

/-- The states two concurrent `persistEntry` calls can jointly reach. -/
def LockReachable (writes : Fin 2 → Nat) (s : LockState) : Prop :=
  Relation.ReflTransGen (LockStep writes) lockInit s

/-- The write history is not interleaved: one call's block of writes
followed by the other's. -/
def NoInterleave (t : List (Fin 2)) : Prop :=
  ∃ x y : Fin 2, ∃ a b : Nat, x ≠ y ∧ t = List.replicate a x ++ List.replicate b y

/-- The other call. -/
def otherFin (i : Fin 2) : Fin 2 := ⟨1 - i.val, by omega⟩

/-- The inductive invariant: a call inside its critical section owns the
lock; an idle call has written nothing; and the write history is two
blocks whose first owner is finished whenever both blocks are
nonempty. -/
def LockInv (s : LockState) : Prop :=
  (∀ i k, s.pc i = .crit k → s.lock = some i) ∧
  (∀ i, s.pc i = .idle → i ∉ s.trace) ∧
  ∃ x y : Fin 2, ∃ a b : Nat, x ≠ y ∧
    s.trace = List.replicate a x ++ List.replicate b y ∧
    (0 < a → 0 < b → s.pc x = .done)

/-- Concrete execution state: call 0 acquired the lock (one write
pending). -/
def lockW1 : LockState := ⟨some 0, Function.update lockInit.pc 0 (.crit 1), []⟩

/-- Concrete execution state: call 0 performed its write. -/
def lockW2 : LockState := ⟨some 0, Function.update lockW1.pc 0 (.crit 0), [0]⟩

end Gitea

namespace Gitea

/-- C1: counterexample. With `pathPrefix = "posts"`, non-recursive, the
direct child `"posts/a.md"` is *excluded* (the whole listing is empty),
because the source's depth filter compares `path.split("/").length`
against `item.path.split("/") - 1`, an array minus a number, which is
`NaN` for any real path; recursive mode does include both files. The
claim says `"posts/a.md"` must be included. -/
theorem listFiles_nonrecursive_drops_direct_child :
    nonRecursiveKeep "posts" "posts/a.md" = false ∧
    listFiles srvPosts "posts" false 1 = some ([], [("s", 1)]) ∧
    listFiles srvPosts "posts" true 1 =
      some ([mkListedFile ⟨"blob", "sha1", "a.md", "posts/a.md", 3⟩,
             mkListedFile ⟨"blob", "sha2", "b.md", "posts/sub/b.md", 4⟩],
            [("s", 1)]) := by
  refine ⟨by decide, by decide, by decide⟩

/-- C2: counterexample. A two-page listing resolves the branch twice —
once per page, inside the loop — so the two tree requests of one
`listFiles` call can be issued at two *different* commit SHAs
(`"sha0"` then `"sha1"`), refuting "resolved exactly once, single fixed
SHA for all pages". -/
theorem listFiles_resolves_branch_once_per_page :
    listFiles srvShifting "" false 5 = some ([], [("sha0", 1), ("sha1", 2)]) ∧
    ("sha0" : String) ≠ "sha1" := by
  refine ⟨by decide, by decide⟩

/-- C4: against a server that answers `truncated: true` on every page,
the `while` loop of `listFiles` never exits: for every fuel bound the
loop is still running.  The source has no page-count ceiling and no
explicit failure path. -/
theorem listFiles_no_page_ceiling (srv : TreeServer)
    (h : ∀ sha page, (srv.getTree sha page).truncated = true) :
    ∀ fuel path recursive page k files reqs,
      listFilesGo srv path recursive fuel page k files reqs = none := by
  intro fuel
  induction fuel with
  | zero =>
    intro path recursive page k files reqs
    rfl
  | succ n ih =>
    intro path recursive page k files reqs
    simp only [listFilesGo, h, if_true]
    exact ih path recursive _ _ _ _

/-- Witness for C4 at a concrete server and fuel. -/
theorem listFiles_no_page_ceiling_witness :
    listFilesGo srvAlwaysTruncated "posts" false 7 1 0 [] [] = none :=
  listFiles_no_page_ceiling srvAlwaysTruncated (fun _ _ => rfl) 7 "posts" false 1 0 [] []

/-- C5: for any server whose pages 1 and 2 come back truncated and whose
page 3 does not (whatever SHA each is fetched at), and any fuel ≥ 3,
`listFiles` terminates having issued exactly the three tree requests
with strictly increasing page indices 1, 2, 3 — it does not continue
past the page whose truncation flag is false. -/
theorem listFiles_three_pages (srv : TreeServer) (path : String) (recursive : Bool)
    (fuel : Nat)
    (h1 : ∀ sha, (srv.getTree sha 1).truncated = true)
    (h2 : ∀ sha, (srv.getTree sha 2).truncated = true)
    (h3 : ∀ sha, (srv.getTree sha 3).truncated = false)
    (hfuel : 3 ≤ fuel) :
    ∃ files,
      listFiles srv path recursive fuel =
        some (files, [(srv.resolve 0, 1), (srv.resolve 1, 2), (srv.resolve 2, 3)]) := by
  obtain ⟨n, rfl⟩ : ∃ n, fuel = ((n + 1) + 1) + 1 := ⟨fuel - 3, by omega⟩
  refine ⟨filterPage path recursive (srv.getTree (srv.resolve 0) 1).tree ++
      (filterPage path recursive (srv.getTree (srv.resolve 1) 2).tree ++
        filterPage path recursive (srv.getTree (srv.resolve 2) 3).tree), ?_⟩
  simp [listFiles, listFilesGo, h1, h2, h3]

/-- Witness for C5 at a concrete server and fuel. -/
theorem listFiles_three_pages_witness :
    ∃ files,
      listFiles srvThreePages "posts" true 5 = some (files, [("s", 1), ("s", 2), ("s", 3)]) :=
  listFiles_three_pages srvThreePages "posts" true 5
    (fun _ => rfl) (fun _ => rfl) (fun _ => rfl) (by omega)

/-- C6: in a successful `getCommitItems` batch, every file is classified
per its own probe: a 404 probe gives action `Create` with empty SHA,
a probe resolving a nonempty content identifier gives `Update`
carrying that identifier; and whenever some file's probe fails with
anything other than a 404 `APIError`, the whole call rejects with an
error rather than classifying that file. -/
theorem getCommitItems_classification (toB64 : PFile → String)
    (probe : String → String → Except ApiErr String) (branch : String)
    (files : List PFile) :
    (∀ items, getCommitItems toB64 probe branch files = .ok items →
      List.Forall₂ (classifiedAs toB64 probe branch) files items) ∧
    (∀ f ∈ files, ∀ e, probe f.path branch = .error e →
      ¬(e.isAPIError = true ∧ e.status = 404) →
      ∃ e', getCommitItems toB64 probe branch files = .error e') := by
  induction files with
  | nil =>
    refine ⟨fun items h => ?_, fun f hf => absurd hf (List.not_mem_nil f)⟩
    simp only [getCommitItems, Except.ok.injEq] at h
    exact h ▸ List.Forall₂.nil
  | cons file rest ih =>
    constructor
    · intro items h
      cases hsha : getFileSha probe file.path branch with
      | error e => simp [getCommitItems, hsha] at h
      | ok sha =>
        cases hrest : getCommitItems toB64 probe branch rest with
        | error e => simp [getCommitItems, hsha, hrest] at h
        | ok restItems =>
          simp only [getCommitItems, hsha, hrest, Except.ok.injEq] at h
          subst h
          refine List.Forall₂.cons ⟨rfl, rfl, fun e hp h404 => ?_, fun s hp hs => ?_⟩
            (ih.1 restItems hrest)
          -- 404 probe: `getFileSha` resolved `""`, so the item is a `Create`
          · have hx : getFileSha probe file.path branch = .ok "" := by
              simp [getFileSha, hp, h404.1, h404.2]
            have hsha' : sha = "" := by
              rw [hx] at hsha
              exact (Except.ok.inj hsha).symm
            subst hsha'
            exact ⟨by simp, rfl⟩
          -- probe resolved a nonempty SHA: the item is an `Update` carrying it
          · have hx : getFileSha probe file.path branch = .ok s := by
              simp [getFileSha, hp]
            have hsha' : sha = s := by
              rw [hx] at hsha
              exact (Except.ok.inj hsha).symm
            subst hsha'
            exact ⟨by simp [bne_iff_ne, hs], rfl⟩
    · intro f hf e hp hne
      rcases List.mem_cons.mp hf with hf | hf
      · subst hf
        have hb : (e.isAPIError && e.status == 404) = false := by
          cases hA : e.isAPIError with
          | false => simp
          | true =>
            have hs : e.status ≠ 404 := fun hc => hne ⟨hA, hc⟩
            simp [hs]
        have hgf : getFileSha probe f.path branch = .error e := by
          simp [getFileSha, hp, hb]
        exact ⟨e, by simp [getCommitItems, hgf]⟩
      · rcases ih.2 f hf e hp hne with ⟨e', hrest⟩
        cases hsha : getFileSha probe file.path branch with
        | error e2 => exact ⟨e2, by simp [getCommitItems, hsha]⟩
        | ok sha => exact ⟨e', by simp [getCommitItems, hsha, hrest]⟩

/-- Witness for C6: a batch of two files against a probe that 404s on
`a.md` and resolves `"abc123"` on `b.md` is classified `Create` /
`Update "abc123"`. -/
theorem getCommitItems_classification_witness :
    List.Forall₂ (classifiedAs toB64c probeC "master") filesC
      [{ action := .create, base64Content := "A", path := "a.md", sha := "" },
       { action := .update, base64Content := "B", path := "b.md", sha := "abc123" }] :=
  (getCommitItems_classification toB64c probeC "master" filesC).1 _ rfl

/-- C3: write failures never reach the caller of `persistFiles`.
`uploadAndCommit` fire-and-forgets every write, so the caller-visible
outcome is identical for any two write endpoints — in particular a
batch whose writes all fail still resolves successfully once the
probes succeed, so "entire batch failed", "partially applied" and
"fully applied" are indistinguishable and no per-file write failure is
reported. -/
theorem persistFiles_ignores_write_failures (toB64 : PFile → String)
    (probe : String → String → Except ApiErr String) (branch : String)
    (entry : Option PFile) (mediaFiles : List PFile) (commitMessage : String)
    (write write' : WriteReq → Except ApiErr Unit) :
    persistFiles toB64 probe write branch entry mediaFiles commitMessage =
      persistFiles toB64 probe write' branch entry mediaFiles commitMessage ∧
    (∀ items, getCommitItems toB64 probe branch (batchFiles entry mediaFiles) = .ok items →
      persistFiles toB64 probe write branch entry mediaFiles commitMessage = .ok ()) := by
  refine ⟨rfl, fun items h => ?_⟩
  simp [persistFiles, h, uploadAndCommit, Except.map]

/-- Witness for C3: a concrete two-file batch against a write endpoint
that rejects every request still reports overall success, matching the
all-accepting endpoint. -/
theorem persistFiles_ignores_write_failures_witness :
    persistFiles toB64c probeC writeFailC "master" (some ⟨"a.md", "A"⟩) [⟨"b.md", "B"⟩]
        "msg" =
      persistFiles toB64c probeC writeOkC "master" (some ⟨"a.md", "A"⟩) [⟨"b.md", "B"⟩]
        "msg" ∧
    persistFiles toB64c probeC writeFailC "master" (some ⟨"a.md", "A"⟩) [⟨"b.md", "B"⟩]
        "msg" = .ok () :=
  ⟨(persistFiles_ignores_write_failures toB64c probeC "master" (some ⟨"a.md", "A"⟩)
      [⟨"b.md", "B"⟩] "msg" writeFailC writeOkC).1,
   (persistFiles_ignores_write_failures toB64c probeC "master" (some ⟨"a.md", "A"⟩)
      [⟨"b.md", "B"⟩] "msg" writeFailC writeOkC).2 _ rfl⟩

/-- Unfolding `fetchFiles` one file at a time. -/
theorem fetchFiles_cons {α : Type} (readF : DlFile → Except Rejection α)
    (f : DlFile) (rest : List DlFile) :
    fetchFiles readF (f :: rest) =
      match readF f with
      | .ok d => LoadedEntry.success f d :: fetchFiles readF rest
      | .error e =>
        if e.truthy then fetchFiles readF rest
        else LoadedEntry.failure false :: fetchFiles readF rest := by
  cases hrf : readF f with
  | ok d => simp [fetchFiles, hrf, List.filter_cons, LoadedEntry.errorTruthy]
  | error e =>
    cases he : e.truthy with
    | false => simp [fetchFiles, hrf, List.filter_cons, LoadedEntry.errorTruthy, he]
    | true => simp [fetchFiles, hrf, List.filter_cons, LoadedEntry.errorTruthy, he]

/-- C9: `fetchFiles` is total (a per-file read failure never rejects the
batch), its result carries exactly one `{file, data}` element per file
whose read succeeded, in input order, and — whenever rejection reasons
are truthy, as the source's `APIError`s are — the result is exactly
those success entries, every failing file excluded. -/
theorem fetchFiles_fault_tolerant {α : Type} (readF : DlFile → Except Rejection α)
    (files : List DlFile) :
    successElements (fetchFiles readF files) = okFetches readF files ∧
    ((∀ f ∈ files, ∀ r, readF f = .error r → r.truthy = true) →
      fetchFiles readF files =
        (okFetches readF files).map (fun p => LoadedEntry.success p.1 p.2)) := by
  induction files with
  | nil => exact ⟨rfl, fun _ => rfl⟩
  | cons f rest ih =>
    constructor
    · rw [fetchFiles_cons]
      cases hrf : readF f with
      | ok d => simp [successElements, okFetches, hrf, ih.1, okFetches]
      | error e =>
        cases he : e.truthy with
        | false => simp [successElements, okFetches, hrf, ih.1, he]
        | true => simp [successElements, okFetches, hrf, ih.1, he]
    · intro htruthy
      rw [fetchFiles_cons]
      cases hrf : readF f with
      | ok d =>
        simp only [okFetches, List.filterMap_cons, hrf, List.map_cons]
        exact congrArg _ (ih.2 fun g hg => htruthy g (List.mem_cons_of_mem f hg))
      | error e =>
        have he : e.truthy = true := htruthy f (List.mem_cons_self f rest) e hrf
        simp only [okFetches, List.filterMap_cons, hrf, he, if_true]
        exact ih.2 fun g hg => htruthy g (List.mem_cons_of_mem f hg)

/-- Witness for C9: five files where the read of file 3 rejects
(truthily); the result is the four successful entries, file 3
excluded. -/
theorem fetchFiles_fault_tolerant_witness :
    (∀ f ∈ filesD, ∀ r, readFC f = .error r → r.truthy = true) ∧
    fetchFiles readFC filesD =
      [.success ⟨"f1", "s1"⟩ "f1", .success ⟨"f2", "s2"⟩ "f2",
       .success ⟨"f4", "s4"⟩ "f4", .success ⟨"f5", "s5"⟩ "f5"] := by
  have hyp : ∀ f ∈ filesD, ∀ r, readFC f = .error r → r.truthy = true := by
    intro f hf r hr
    cases r with
    | mk t =>
      by_cases hp : f.path = "f3"
      · simp only [readFC, hp, if_pos, Except.error.injEq, Rejection.mk.injEq] at hr
        exact hr.symm
      · simp [readFC, hp] at hr
  refine ⟨hyp, ?_⟩
  rw [(fetchFiles_fault_tolerant readFC filesD).2 hyp]
  decide

/-- Every file object accumulated by the lister loop is either from the
initial accumulator or of the shape `mkListedFile item`. -/
theorem listFilesGo_entries (srv : TreeServer) (path : String) (recursive : Bool) :
    ∀ fuel page k acc reqs files reqs',
      listFilesGo srv path recursive fuel page k acc reqs = some (files, reqs') →
      ∀ e ∈ files, e ∈ acc ∨ ∃ t, e = mkListedFile t := by
  intro fuel
  induction fuel with
  | zero =>
    intro page k acc reqs files reqs' h
    exact absurd h (by simp [listFilesGo])
  | succ n ih =>
    intro page k acc reqs files reqs' h e he
    simp only [listFilesGo] at h
    have hsplit : e ∈ acc ++ filterPage path recursive (srv.getTree (srv.resolve k) page).tree ∨
        ∃ t, e = mkListedFile t := by
      by_cases ht : (srv.getTree (srv.resolve k) page).truncated = true
      · rw [if_pos ht] at h
        exact ih _ _ _ _ _ _ h e he
      · rw [if_neg ht] at h
        cases h
        exact Or.inl he
    rcases hsplit with hmem | hmk
    · rcases List.mem_append.mp hmem with h1 | h2
      · exact Or.inl h1
      · rcases List.mem_map.mp h2 with ⟨t, _, rfl⟩
        exact Or.inr ⟨t, rfl⟩
    · exact Or.inr hmk

/-- C10: every element of a `getMedia` result has `id: undefined` and
`download_url: undefined`, because the listed files carry fields
`{type, id, name, path, size}` while `getMedia` destructures `sha` and
`download_url`, which are absent. -/
theorem getMedia_ids_undefined (srv : TreeServer) (mediaFolder : String) (fuel : Nat)
    (ms : List JsObj) (h : getMedia srv mediaFolder fuel = some ms) :
    ∀ m ∈ ms, getField m "id" = .undefined ∧ getField m "download_url" = .undefined := by
  cases hlf : listFiles srv mediaFolder false fuel with
  | none => simp [getMedia, hlf] at h
  | some r =>
    have h' : List.map getMediaMap r.1 = ms := by simpa [getMedia, hlf] using h
    subst h'
    intro m hm
    rcases List.mem_map.mp hm with ⟨o, ho, rfl⟩
    rcases listFilesGo_entries srv mediaFolder false fuel 1 0 [] [] r.1 r.2 hlf o ho with
      habs | ⟨t, rfl⟩
    · exact absurd habs (List.not_mem_nil o)
    · exact ⟨rfl, rfl⟩

/-- Starting a waiting fetch raises the in-flight count by exactly 1. -/
theorem inflightCount_start {n : Nat} (s : DlState n) (i : Fin n)
    (hw : s.phase i = .waiting) :
    inflightCount ⟨Function.update s.phase i .inflight⟩ = inflightCount s + 1 := by
  unfold inflightCount
  have hins :
      (Finset.univ.filter
          (fun j => Function.update s.phase i FetchPhase.inflight j = .inflight)) =
        insert i (Finset.univ.filter (fun j => s.phase j = FetchPhase.inflight)) := by
    ext j
    by_cases hj : j = i
    · subst hj
      simp [Function.update_same]
    · simp [Function.update_noteq hj, hj]
  rw [hins, Finset.card_insert_of_not_mem]
  simp [hw]

/-- Settling a fetch never raises the in-flight count. -/
theorem inflightCount_finish {n : Nat} (s : DlState n) (i : Fin n) :
    inflightCount ⟨Function.update s.phase i .settled⟩ ≤ inflightCount s := by
  unfold inflightCount
  refine Finset.card_le_card fun j hj => ?_
  simp only [Finset.mem_filter, Finset.mem_univ, true_and] at hj ⊢
  by_cases hij : j = i
  · subst hij
    rw [Function.update_same] at hj
    cases hj
  · rwa [Function.update_noteq hij] at hj

/-- C8: in every state a `fetchFiles` run can reach, at most
`MAX_CONCURRENT_DOWNLOADS = 10` fetches are in flight simultaneously —
whatever the number `n` of input files (25 in the claim's instance). -/
theorem fetchFiles_concurrency_bound {n : Nat} (s : DlState n)
    (h : DlReachable s) : inflightCount s ≤ MAX_CONCURRENT_DOWNLOADS := by
  induction h with
  | refl => simp [inflightCount, dlInit, MAX_CONCURRENT_DOWNLOADS]
  | tail hr hstep ih =>
    cases hstep with
    | start i hw hlt =>
      rw [inflightCount_start _ i hw]
      omega
    | finish i hin =>
      exact le_trans (inflightCount_finish _ i) ih

/-- Witness for C8: a run over 25 files that has admitted one fetch. -/
theorem fetchFiles_concurrency_bound_witness :
    inflightCount
        (⟨Function.update (dlInit 25).phase ⟨0, by omega⟩ .inflight⟩ : DlState 25) ≤
      MAX_CONCURRENT_DOWNLOADS :=
  fetchFiles_concurrency_bound _
    (Relation.ReflTransGen.single
      (DlStep.start (dlInit 25) ⟨0, by omega⟩ rfl (by decide)))

/-- Witness for C10: a concrete nonempty media listing whose single
element carries `id: undefined` and `download_url: undefined`. -/
theorem getMedia_ids_undefined_witness :
    getMedia srvNumeric "" 1 =
      some [[("id", .undefined), ("name", .vstr "2"), ("size", .vnum 1),
             ("download_url", .undefined), ("path", .vstr "2")]] ∧
    ∀ m ∈ [[(("id" : String), JsValue.undefined), ("name", .vstr "2"), ("size", .vnum 1),
             ("download_url", .undefined), ("path", .vstr "2")]],
      getField m "id" = .undefined ∧ getField m "download_url" = .undefined :=
  ⟨by decide, getMedia_ids_undefined srvNumeric "" 1 _ (by decide)⟩

/-- The other call differs from the call itself. -/
theorem otherFin_ne (i : Fin 2) : otherFin i ≠ i := by
  intro h
  have hv : (otherFin i).val = i.val := congrArg Fin.val h
  rcases i with ⟨v, hlt⟩
  simp only [otherFin] at hv
  omega

/-- The invariant holds initially. -/
theorem lockInv_init : LockInv lockInit := by
  refine ⟨fun i k h => ?_, fun i h => ?_, 0, 1, 0, 0, by decide, by simp [lockInit],
    fun ha _ => absurd ha (by omega)⟩
  · simp [lockInit] at h
  · simp [lockInit]

/-- Every lock-discipline step preserves the invariant. -/
theorem lockInv_step (writes : Fin 2 → Nat) (s t : LockState)
    (hstep : LockStep writes s t) (hinv : LockInv s) : LockInv t := by
  obtain ⟨hcl, hid, x, y, a, b, hxy, htr, hdone⟩ := hinv
  cases hstep with
  | acquire i hidle hlock =>
    refine ⟨fun j k hj => ?_, fun j hj => ?_, x, y, a, b, hxy, htr, fun ha hb => ?_⟩
    · by_cases hji : j = i
      · subst hji
        rfl
      · simp only [Function.update_noteq hji] at hj
        exact absurd (hcl j k hj) (by rw [hlock]; simp)
    · by_cases hji : j = i
      · subst hji
        simp [Function.update_same] at hj
      · simp only [Function.update_noteq hji] at hj
        exact hid j hj
    · have hx := hdone ha hb
      have hxi : x ≠ i := by
        intro hcon
        rw [hcon, hidle] at hx
        cases hx
      simp only [Function.update_noteq hxi]
      exact hx
  | write i k hcrit =>
    have hlock := hcl i (k + 1) hcrit
    have hmux : ∀ j k', s.pc j = .crit k' → j = i := fun j k' hj =>
      Option.some.inj ((hcl j k' hj).symm.trans hlock)
    refine ⟨fun j k' hj => ?_, fun j hj => ?_, ?_⟩
    · by_cases hji : j = i
      · subst hji
        exact hlock
      · simp only [Function.update_noteq hji] at hj
        exact hcl j k' hj
    · by_cases hji : j = i
      · subst hji
        simp [Function.update_same] at hj
      · simp only [Function.update_noteq hji] at hj
        have hnm := hid j hj
        simp [List.mem_append, List.mem_singleton, hnm, hji]
    · rcases Nat.eq_zero_or_pos b with hb0 | hbpos
      · subst hb0
        rw [List.replicate_zero, List.append_nil] at htr
        rcases Nat.eq_zero_or_pos a with ha0 | hapos
        · subst ha0
          rw [List.replicate_zero] at htr
          exact ⟨otherFin i, i, 0, 1, otherFin_ne i, by simp [htr],
            fun ha _ => absurd ha (by omega)⟩
        · have hxmem : x ∈ s.trace := by
            rw [htr]
            exact List.mem_replicate.mpr ⟨by omega, rfl⟩
          cases hpx : s.pc x with
          | idle => exact absurd hxmem (hid x hpx)
          | crit kx =>
            have hxi : x = i := hmux x kx hpx
            subst hxi
            exact ⟨x, otherFin x, a + 1, 0, Ne.symm (otherFin_ne x),
              by simp [htr, List.replicate_succ'],
              fun _ hb' => absurd hb' (by omega)⟩
          | done =>
            have hxi : x ≠ i := by
              intro hcon
              rw [hcon, hcrit] at hpx
              cases hpx
            refine ⟨x, i, a, 1, hxi, by simp [htr], fun _ _ => ?_⟩
            simp only [Function.update_noteq hxi]
            exact hpx
      · have hymem : y ∈ s.trace := by
          rw [htr]
          exact List.mem_append.mpr (Or.inr (List.mem_replicate.mpr ⟨by omega, rfl⟩))
        rcases Nat.eq_zero_or_pos a with ha0 | hapos
        · subst ha0
          rw [List.replicate_zero, List.nil_append] at htr
          cases hpy : s.pc y with
          | idle => exact absurd hymem (hid y hpy)
          | crit ky =>
            have hyi : y = i := hmux y ky hpy
            subst hyi
            exact ⟨y, otherFin y, b + 1, 0, Ne.symm (otherFin_ne y),
              by simp [htr, List.replicate_succ'],
              fun _ hb' => absurd hb' (by omega)⟩
          | done =>
            have hyi : y ≠ i := by
              intro hcon
              rw [hcon, hcrit] at hpy
              cases hpy
            refine ⟨y, i, b, 1, hyi, by simp [htr], fun _ _ => ?_⟩
            simp only [Function.update_noteq hyi]
            exact hpy
        · have hx := hdone hapos hbpos
          have hxi : x ≠ i := by
            intro hcon
            rw [hcon, hcrit] at hx
            cases hx
          cases hpy : s.pc y with
          | idle => exact absurd hymem (hid y hpy)
          | crit ky =>
            have hyi : y = i := hmux y ky hpy
            subst hyi
            refine ⟨x, y, a, b + 1, hxy, ?_, fun _ _ => ?_⟩
            · simp [htr, List.replicate_succ', List.append_assoc]
            · simp only [Function.update_noteq hxi]
              exact hx
          | done =>
            have hyi : y ≠ i := by
              intro hcon
              rw [hcon, hcrit] at hpy
              cases hpy
            exfalso
            have h1 : x.val ≠ y.val := fun h => hxy (Fin.ext h)
            have h2 : x.val ≠ i.val := fun h => hxi (Fin.ext h)
            have h3 : y.val ≠ i.val := fun h => hyi (Fin.ext h)
            have hx2 := x.isLt
            have hy2 := y.isLt
            have hi2 := i.isLt
            omega
  | release i hcrit =>
    have hlock := hcl i 0 hcrit
    refine ⟨fun j k' hj => ?_, fun j hj => ?_, x, y, a, b, hxy, htr, fun ha hb => ?_⟩
    · by_cases hji : j = i
      · subst hji
        simp [Function.update_same] at hj
      · simp only [Function.update_noteq hji] at hj
        exact absurd (Option.some.inj ((hcl j k' hj).symm.trans hlock)) hji
    · by_cases hji : j = i
      · subst hji
        simp [Function.update_same] at hj
      · simp only [Function.update_noteq hji] at hj
        exact hid j hj
    · have hx := hdone ha hb
      by_cases hxi : x = i
      · subst hxi
        simp [Function.update_same]
      · simp only [Function.update_noteq hxi]
        exact hx

/-- The invariant holds in every reachable state. -/
theorem lockInv_reachable (writes : Fin 2 → Nat) (s : LockState)
    (h : LockReachable writes s) : LockInv s := by
  induction h with
  | refl => exact lockInv_init
  | tail hr hstep ih => exact lockInv_step writes _ _ hstep ih

/-- C7 (lock discipline modelled from the spec): in every state two
concurrent `persistEntry` calls can jointly reach, at most one call is
inside its persist critical section, and the write history is never
interleaved — it is one call's whole block of writes followed by the
other's. -/
theorem persistEntry_mutual_exclusion (writes : Fin 2 → Nat) (s : LockState)
    (h : LockReachable writes s) :
    (∀ i j ki kj, s.pc i = .crit ki → s.pc j = .crit kj → i = j) ∧
    NoInterleave s.trace := by
  obtain ⟨hcl, _, x, y, a, b, hxy, htr, _⟩ := lockInv_reachable writes s h
  exact ⟨fun i j ki kj hi hj => Option.some.inj ((hcl i ki hi).symm.trans (hcl j kj hj)),
    x, y, a, b, hxy, htr⟩

/-- Witness for C7: the state after call 0 acquired the lock and
performed its single write. -/
theorem persistEntry_mutual_exclusion_witness :
    (∀ i j ki kj, lockW2.pc i = .crit ki → lockW2.pc j = .crit kj → i = j) ∧
    NoInterleave lockW2.trace :=
  persistEntry_mutual_exclusion (fun _ => 1) lockW2
    (Relation.ReflTransGen.tail
      (Relation.ReflTransGen.single (LockStep.acquire lockInit 0 rfl rfl))
      (LockStep.write lockW1 0 0 rfl))

end Gitea
